import Mathlib

/-
  Shallow embedding of the pg_shard distribution-metadata directory
  (distribution_metadata.c).  The three catalog tables are modeled as lists
  of rows inside a MetaState; index and heap scans become first-match or
  filter traversals of those lists in row order; the ereport error exits
  become Except results.  The file is configured with UseCitusMetadata =
  true, so the partition key column stores the serialized Var node (we model
  the row as holding the decoded Var, treating the host serialization as
  external), and the shard-placement identifier is the object-id system
  column assigned by the row store at insertion time.
-/

namespace PgShard

/-- Typed value produced by a type input function (a Postgres Datum after
OidInputFunctionCall).  Only the value types exercised by the metadata
directory are modeled: 32-bit and 64-bit integers and text. -/
inductive Datum where
  | int : Int → Datum
  | text : String → Datum
deriving DecidableEq, Repr

/-- Type oid of the 32-bit signed integer type (INT4OID in pg_type.h). -/
def INT4OID : Nat := 23

/-- Type oid of the 64-bit signed integer type (INT8OID in pg_type.h). -/
def INT8OID : Nat := 20

/-- Type oid of the text type (TEXTOID in pg_type.h). -/
def TEXTOID : Nat := 25

/-- Modelled from the spec: the partition-method marker for hash-partitioned
tables.  The constant HASH_PARTITION_TYPE is declared in
distribution_metadata.h, which is not among the provided sources; its
concrete character value is irrelevant to every claim (only equality with a
row value is used). -/
def HASH_PARTITION_TYPE : Char := 'h'

/-- Modelled from the spec: the shard-storage marker for regular table
storage (STORAGE_TABLE in distribution_metadata.h, not among the provided
sources). -/
def STORAGE_TABLE : Char := 't'

/-- Modelled from the spec: the shard-placement state meaning a finalized
(healthy) placement (STATE_FINALIZED in distribution_metadata.h, not among
the provided sources). -/
def STATE_FINALIZED : Int := 1

/-- Partition key column reference (the Var node decoded from the stored
partition key text).  Only the fields read by LoadShardInterval are kept:
the column value type and its type modifier. -/
structure Var where
  vartype : Nat
  vartypmod : Int
deriving DecidableEq, Repr

/-- Row of the partition metadata table (pg_dist_partition): relation id,
partition method character, and the partition key.  With UseCitusMetadata
the key column stores nodeToString of a Var; PartitionColumn decodes it with
stringToNode, so the row is modeled as holding the decoded Var. -/
structure PartitionRow where
  relationId : Nat
  partitionType : Char
  partitionKey : Var
deriving DecidableEq, Repr

/-- Row of the shard metadata table (pg_dist_shard).  The min and max value
columns are nullable text. -/
structure ShardRow where
  shardId : Int
  relationId : Nat
  storage : Char
  minValue : Option String
  maxValue : Option String
deriving DecidableEq, Repr

/-- Row of the shard placement metadata table (pg_dist_shard_placement).
With UseCitusMetadata the placement identifier is the object-id system
column (AttrNumShardPlacementId = ObjectIdAttributeNumber), assigned by the
row store when the row is inserted; it is modeled as an explicit oid field. -/
structure PlacementRow where
  oid : Int
  shardId : Int
  shardState : Int
  nodeName : String
  nodePort : Int
deriving DecidableEq, Repr

/-- State of the three catalog tables, each in row (scan) order. -/
structure MetaState where
  partitionRows : List PartitionRow
  shardRows : List ShardRow
  placementRows : List PlacementRow
deriving DecidableEq, Repr

/-- Abstract error kinds raised by ereport(ERROR, ...) calls.  NullBoundary
stands for the undefined behavior of TextDatumGetCString applied to a null
boundary datum (LoadShardIntervalRow reads min and max without checking
isNull); no claim exercises that path.  InvalidInput stands for a type input
function rejecting its text argument. -/
inductive MetaError where
  | NotDistributed
  | ShardNotFound
  | ShardNotPlaced
  | PlacementNotFound
  | InvalidLockMode
  | InvalidInput
  | NullBoundary
deriving DecidableEq, Repr

/-- Decimal digit value of a character, when it is a digit. -/
def digitVal (c : Char) : Option Nat :=
  if '0' ≤ c ∧ c ≤ '9' then some (c.toNat - '0'.toNat) else none

/-- Accumulates a run of decimal digits into a natural number, rejecting any
non-digit character. -/
def digitsToNat : List Char → Nat → Option Nat
  | [], acc => some acc
  | c :: rest, acc =>
    match digitVal c with
    | some d => digitsToNat rest (acc * 10 + d)
    | none => none

/-- Parses a non-empty all-digit character run. -/
def parseUnsigned : List Char → Option Nat
  | [] => none
  | l => digitsToNat l 0

/-- Parses an optionally signed decimal integer string (the numeric core of
the pg_strtoint conversion used by int4in and int8in). -/
def strtoint (s : String) : Option Int :=
  match s.data with
  | '-' :: rest => (parseUnsigned rest).map (fun n => -(n : Int))
  | '+' :: rest => (parseUnsigned rest).map (fun n => (n : Int))
  | l => (parseUnsigned l).map (fun n => (n : Int))

/-- Canonical text-to-value conversion (OidInputFunctionCall): dispatches on
the type oid to the input function of that type.  int4in and int8in parse an
optionally signed decimal string and range-check it; textin is the
identity.  The type modifier is accepted and ignored, as it is by the three
modeled input functions. -/
def OidInputFunctionCall (typeId : Nat) (valueString : String) (_typeMod : Int) :
    Except MetaError Datum :=
  if typeId = INT4OID then
    match strtoint valueString with
    | some i => if -(2 ^ 31) ≤ i ∧ i ≤ 2 ^ 31 - 1 then .ok (.int i) else .error .InvalidInput
    | none => .error .InvalidInput
  else if typeId = INT8OID then
    match strtoint valueString with
    | some i => if -(2 ^ 63) ≤ i ∧ i ≤ 2 ^ 63 - 1 then .ok (.int i) else .error .InvalidInput
    | none => .error .InvalidInput
  else if typeId = TEXTOID then
    .ok (.text valueString)
  else
    .error .InvalidInput

/-- Shard interval record built by LoadShardInterval. -/
structure ShardInterval where
  id : Int
  relationId : Nat
  minValue : Datum
  maxValue : Datum
  valueTypeId : Nat
deriving DecidableEq, Repr

/-- PartitionType: heap scan of the partition table for the first row whose
relation id matches; returns its partition method character, erroring with
NotDistributed (ERRCODE_UNDEFINED_OBJECT) when no row matches. -/
def PartitionType (s : MetaState) (distributedTableId : Nat) : Except MetaError Char :=
  match s.partitionRows.find? (fun r => r.relationId == distributedTableId) with
  | some row => .ok row.partitionType
  | none => .error .NotDistributed

/-- PartitionColumn: heap scan of the partition table for the first row
whose relation id matches; with UseCitusMetadata the stored key text is
decoded with stringToNode into a Var (modeled as the stored Var itself).
Errors with NotDistributed when no row matches. -/
def PartitionColumn (s : MetaState) (distributedTableId : Nat) : Except MetaError Var :=
  match s.partitionRows.find? (fun r => r.relationId == distributedTableId) with
  | some row => .ok row.partitionKey
  | none => .error .NotDistributed

/-- LoadShardIntervalRow: scan of the shard table primary-key index for the
row with the given shard id; errors with ShardNotFound when absent. -/
def LoadShardIntervalRow (s : MetaState) (shardId : Int) : Except MetaError ShardRow :=
  match s.shardRows.find? (fun r => r.shardId == shardId) with
  | some row => .ok row
  | none => .error .ShardNotFound

/-- LoadShardInterval: reads the raw shard row, resolves the boundary value
type (the fixed 32-bit integer type for hash-partitioned tables, otherwise
the type and typmod of the partition key column), converts both boundary strings
through the input function of that type, and assembles the ShardInterval. -/
def LoadShardInterval (s : MetaState) (shardId : Int) : Except MetaError ShardInterval :=
  match LoadShardIntervalRow s shardId with
  | .error e => .error e
  | .ok row =>
    match row.minValue, row.maxValue with
    | some minValueString, some maxValueString =>
      match PartitionType s row.relationId with
      | .error e => .error e
      | .ok pt =>
        match (if pt = HASH_PARTITION_TYPE then
                 Except.ok (INT4OID, (-1 : Int))
               else
                 match PartitionColumn s row.relationId with
                 | .error e => .error e
                 | .ok partitionColumn =>
                   Except.ok (partitionColumn.vartype, partitionColumn.vartypmod)) with
        | .error e => .error e
        | .ok typeInfo =>
          match OidInputFunctionCall typeInfo.1 minValueString typeInfo.2 with
          | .error e => .error e
          | .ok minValue =>
            match OidInputFunctionCall typeInfo.1 maxValueString typeInfo.2 with
            | .error e => .error e
            | .ok maxValue => .ok ⟨shardId, row.relationId, minValue, maxValue, typeInfo.1⟩
    | _, _ => .error .NullBoundary

/-- Loop body of LoadShardIntervalList: converts each scanned shard row
through LoadShardInterval, in scan order, aborting on the first error. -/
def loadIntervalsForRows (s : MetaState) : List ShardRow → Except MetaError (List ShardInterval)
  | [] => .ok []
  | row :: rest =>
    match LoadShardInterval s row.shardId with
    | .error e => .error e
    | .ok interval =>
      match loadIntervalsForRows s rest with
      | .error e => .error e
      | .ok intervals => .ok (interval :: intervals)

/-- LoadShardIntervalList: index scan of the shard table by relation id,
converting each matching row through LoadShardInterval; an empty list (not
an error) when the table has no shards. -/
def LoadShardIntervalList (s : MetaState) (distributedTableId : Nat) :
    Except MetaError (List ShardInterval) :=
  loadIntervalsForRows s (s.shardRows.filter (fun r => r.relationId == distributedTableId))

/-- Entry of the session-scoped shard interval list cache. -/
structure ShardIntervalListCacheEntry where
  distributedTableId : Nat
  shardIntervalList : List ShardInterval
deriving DecidableEq, Repr

/-- LookupShardIntervalList: searches the cache list front to back for an
entry with the given table id; on a hit returns the list of that entry and the
unchanged cache.  On a miss it calls LoadShardIntervalList and, only when
the loaded list is non-empty, appends a new cache entry; an empty result is
returned without caching. -/
def LookupShardIntervalList (s : MetaState) (cache : List ShardIntervalListCacheEntry)
    (distributedTableId : Nat) :
    Except MetaError (List ShardInterval × List ShardIntervalListCacheEntry) :=
  match cache.find? (fun e => e.distributedTableId == distributedTableId) with
  | some entry => .ok (entry.shardIntervalList, cache)
  | none =>
    match LoadShardIntervalList s distributedTableId with
    | .error e => .error e
    | .ok [] => .ok ([], cache)
    | .ok (interval :: rest) =>
      .ok (interval :: rest, cache ++ [⟨distributedTableId, interval :: rest⟩])

/-- Shard placement record built by TupleToShardPlacement. -/
structure ShardPlacement where
  id : Int
  shardId : Int
  shardState : Int
  nodeName : String
  nodePort : Int
deriving DecidableEq, Repr

/-- TupleToShardPlacement: with UseCitusMetadata the id field is read from
the object-id system column of the row; the remaining fields are the ordinary
columns of the row. -/
def TupleToShardPlacement (row : PlacementRow) : ShardPlacement :=
  ⟨row.oid, row.shardId, row.shardState, row.nodeName, row.nodePort⟩

/-- LoadShardPlacementList: index scan of the placement table by shard id,
converting every matching row; errors with ShardNotPlaced (ERRCODE_NO_DATA)
when no placement row matches. -/
def LoadShardPlacementList (s : MetaState) (shardId : Int) :
    Except MetaError (List ShardPlacement) :=
  match (s.placementRows.filter (fun r => r.shardId == shardId)).map TupleToShardPlacement with
  | [] => .error .ShardNotPlaced
  | placement :: rest => .ok (placement :: rest)

/-- LoadFinalizedShardPlacementList: LoadShardPlacementList filtered to the
placements in the finalized state. -/
def LoadFinalizedShardPlacementList (s : MetaState) (shardId : Int) :
    Except MetaError (List ShardPlacement) :=
  match LoadShardPlacementList s shardId with
  | .error e => .error e
  | .ok shardPlacementList =>
    .ok (shardPlacementList.filter (fun p => p.shardState == STATE_FINALIZED))

/-- InsertShardRow: appends one shard row.  Both boundary columns are stored
as given only when both arguments are non-null; otherwise both are stored as
the explicit null marker (the code sets both isNulls flags whenever either
argument is NULL). -/
def InsertShardRow (s : MetaState) (distributedTableId : Nat) (shardId : Int)
    (shardStorage : Char) (shardMinValue shardMaxValue : Option String) : MetaState :=
  let storedValues : Option String × Option String :=
    match shardMinValue, shardMaxValue with
    | some minValue, some maxValue => (some minValue, some maxValue)
    | _, _ => (none, none)
  { s with shardRows := s.shardRows ++
      [⟨shardId, distributedTableId, shardStorage, storedValues.1, storedValues.2⟩] }

/-- InsertShardPlacementRow: appends one placement row.  With
UseCitusMetadata the placement identifier column is the object-id system
column, assigned by the row store at insertion (modeled as the assignedOid
argument); the shardPlacementId argument is written at an attribute position
outside the five-column tuple (AttrNumShardPlacementId - 1 with
AttrNumShardPlacementId = ObjectIdAttributeNumber) and so never reaches the
stored row. -/
def InsertShardPlacementRow (s : MetaState) (assignedOid : Int) (_shardPlacementId : Int)
    (shardId : Int) (shardState : Int) (nodeName : String) (nodePort : Int) : MetaState :=
  { s with placementRows := s.placementRows ++
      [⟨assignedOid, shardId, shardState, nodeName, nodePort⟩] }

/-- DeleteShardPlacementRow: scans the placement primary-key index for the
first row whose identifier matches and deletes that tuple; errors with
PlacementNotFound (ERRCODE_UNDEFINED_OBJECT) when no row matches, in which
case nothing was deleted (the error return carries no modified state). -/
def DeleteShardPlacementRow (s : MetaState) (shardPlacementId : Int) :
    Except MetaError MetaState :=
  match s.placementRows.find? (fun r => r.oid == shardPlacementId) with
  | some _ =>
    .ok { s with placementRows :=
            s.placementRows.eraseP (fun r => r.oid == shardPlacementId) }
  | none => .error .PlacementNotFound

/-- Advisory lock tag built by SET_LOCKTAG_ADVISORY: database id, the two
32-bit halves of the shard id, and a constant fourth field. -/
structure LockTag where
  databaseId : Nat
  keyUpperHalf : Nat
  keyLowerHalf : Nat
  key4 : Nat
deriving DecidableEq, Repr

/-- ShareLock lock mode number (lockdefs.h). -/
def ShareLock : Nat := 5

/-- ExclusiveLock lock mode number (lockdefs.h). -/
def ExclusiveLock : Nat := 7

/-- Reinterpretation of a signed 64-bit value as unsigned (two-complement),
so that the C casts (uint32)(shardId >> 32) and (uint32) shardId become the
upper and lower 32-bit halves. -/
def uint64OfInt64 (i : Int) : Nat := (i % (2 : Int) ^ 64).toNat

/-- LockShard: builds the advisory lock tag from the two 32-bit halves of
the shard id, then acquires a transaction-scoped lock when the mode is
ExclusiveLock or ShareLock (modeled as appending to the lock-manager state);
any other mode errors with InvalidLockMode without acquiring anything. -/
def LockShard (locks : List (LockTag × Nat)) (databaseId : Nat) (shardId : Int)
    (lockMode : Nat) : Except MetaError (List (LockTag × Nat)) :=
  let keyUpperHalf := uint64OfInt64 shardId / 2 ^ 32
  let keyLowerHalf := uint64OfInt64 shardId % 2 ^ 32
  let lockTag : LockTag := ⟨databaseId, keyUpperHalf, keyLowerHalf, 0⟩
  if lockMode = ExclusiveLock ∨ lockMode = ShareLock then
    .ok (locks ++ [(lockTag, lockMode)])
  else
    .error .InvalidLockMode

/-- Arguments of one InsertShardRow call, used to describe interleaved
insertion sequences across multiple tables. -/
structure InsertOp where
  tableId : Nat
  shardId : Int
  storage : Char
  minValue : Option String
  maxValue : Option String
deriving DecidableEq, Repr

/-- Applies a sequence of InsertShardRow calls in order. -/
def applyInserts (s : MetaState) : List InsertOp → MetaState
  | [] => s
  | op :: rest =>
    applyInserts (InsertShardRow s op.tableId op.shardId op.storage op.minValue op.maxValue) rest

/-- Row stored by one InsertShardRow call (both boundaries null unless both
arguments are non-null). -/
def storedShardRow (op : InsertOp) : ShardRow :=
  match op.minValue, op.maxValue with
  | some minValue, some maxValue => ⟨op.shardId, op.tableId, op.storage, some minValue, some maxValue⟩
  | _, _ => ⟨op.shardId, op.tableId, op.storage, none, none⟩

section Helpers

/-- Searching an appended list finds nothing in the first part exactly when
the first part has no match. -/
lemma find?_append_of_none {α : Type} (p : α → Bool) (l₁ l₂ : List α)
    (h : l₁.find? p = none) : (l₁ ++ l₂).find? p = l₂.find? p := by
  rw [List.find?_append, h, Option.none_or]

/-- Evaluation of the 32-bit integer input function on the literal "0". -/
lemma oidInput_int4_zero : OidInputFunctionCall INT4OID "0" (-1) = .ok (.int 0) := by rfl

/-- Evaluation of the 32-bit integer input function on the literal "10". -/
lemma oidInput_int4_ten : OidInputFunctionCall INT4OID "10" (-1) = .ok (.int 10) := by rfl

/-- Evaluation of the 32-bit integer input function on the literal "5". -/
lemma oidInput_int4_five : OidInputFunctionCall INT4OID "5" (-1) = .ok (.int 5) := by rfl

/-- A first scan match is the head of the filtered list. -/
lemma find?_of_filter_cons {α : Type} (p : α → Bool) (l : List α) (r : α) (rest : List α)
    (h : l.filter p = r :: rest) : l.find? p = some r := by
  induction l with
  | nil => simp at h
  | cons x xs ih =>
    cases hp : p x with
    | true =>
      rw [List.filter_cons_of_pos hp] at h
      injection h with h₁ h₂
      subst h₁
      exact List.find?_cons_of_pos _ hp
    | false =>
      rw [List.filter_cons_of_neg (by simp [hp])] at h
      rw [List.find?_cons_of_neg _ (by simp [hp])]
      exact ih h

/-- Deleting the first scan match from a list with exactly one match keeps
precisely the non-matching rows, in order. -/
lemma eraseP_of_filter_singleton {α : Type} (p : α → Bool) (l : List α) (r : α)
    (h : l.filter p = [r]) : l.eraseP p = l.filter (fun x => !(p x)) := by
  induction l with
  | nil => simp at h
  | cons x xs ih =>
    cases hp : p x with
    | true =>
      rw [List.filter_cons_of_pos hp] at h
      injection h with h₁ h₂
      rw [List.eraseP_cons, hp]
      simp only [cond_true]
      rw [List.filter_cons_of_neg (by simp [hp])]
      exact (List.filter_eq_self.mpr (by
        intro a ha
        have := List.filter_eq_nil_iff.mp h₂ a ha
        simpa using this)).symm
    | false =>
      rw [List.filter_cons_of_neg (by simp [hp])] at h
      rw [List.eraseP_cons, hp]
      simp only [cond_false]
      rw [List.filter_cons_of_pos (by simp [hp])]
      rw [ih h]

/-- InsertShardRow appends exactly the stored row of the operation. -/
lemma insertShardRow_shardRows (s : MetaState) (op : InsertOp) :
    (InsertShardRow s op.tableId op.shardId op.storage op.minValue op.maxValue).shardRows
      = s.shardRows ++ [storedShardRow op] := by
  rcases op with ⟨t, sid, stg, minV, maxV⟩
  cases minV <;> cases maxV <;> rfl

/-- A sequence of InsertShardRow calls appends the stored rows in order. -/
lemma applyInserts_shardRows (s : MetaState) (ops : List InsertOp) :
    (applyInserts s ops).shardRows = s.shardRows ++ ops.map storedShardRow := by
  induction ops generalizing s with
  | nil => simp [applyInserts]
  | cons op rest ih =>
    rw [applyInserts, ih, insertShardRow_shardRows]
    simp

/-- InsertShardRow sequences leave the partition table untouched. -/
lemma applyInserts_partitionRows (s : MetaState) (ops : List InsertOp) :
    (applyInserts s ops).partitionRows = s.partitionRows := by
  induction ops generalizing s with
  | nil => rfl
  | cons op rest ih =>
    rw [applyInserts]
    exact ih _

/-- The stored row keeps the owning table of the operation. -/
lemma storedShardRow_relationId (op : InsertOp) :
    (storedShardRow op).relationId = op.tableId := by
  rcases op with ⟨t, sid, stg, minV, maxV⟩
  cases minV <;> cases maxV <;> rfl

/-- The stored row keeps the shard identifier of the operation. -/
lemma storedShardRow_shardId (op : InsertOp) :
    (storedShardRow op).shardId = op.shardId := by
  rcases op with ⟨t, sid, stg, minV, maxV⟩
  cases minV <;> cases maxV <;> rfl

/-- Filtering stored rows by owning table is filtering the operations by
table. -/
lemma filter_map_storedShardRow (ops : List InsertOp) (t : Nat) :
    (ops.map storedShardRow).filter (fun r => r.relationId == t)
      = (ops.filter (fun op => op.tableId == t)).map storedShardRow := by
  induction ops with
  | nil => rfl
  | cons op rest ih =>
    simp only [List.map_cons, List.filter_cons, storedShardRow_relationId]
    cases h : (op.tableId == t) <;> simp [h, ih]

/-- A successfully loaded shard interval carries the requested shard id. -/
lemma loadShardInterval_id (s : MetaState) (sid : Int) (iv : ShardInterval)
    (h : LoadShardInterval s sid = .ok iv) : iv.id = sid := by
  rw [LoadShardInterval] at h
  repeat' split at h
  all_goals first
    | exact Except.noConfusion h
    | (injection h with h'; rw [← h'])

/-- The ids of a successfully loaded interval list are the shard ids of the
scanned rows, in order. -/
lemma loadIntervalsForRows_ids (s : MetaState) (rows : List ShardRow)
    (l : List ShardInterval) (h : loadIntervalsForRows s rows = .ok l) :
    l.map ShardInterval.id = rows.map ShardRow.shardId := by
  induction rows generalizing l with
  | nil =>
    rw [loadIntervalsForRows] at h
    injection h with h'
    rw [← h']
    rfl
  | cons row rest ih =>
    rw [loadIntervalsForRows] at h
    cases hint : LoadShardInterval s row.shardId with
    | error e =>
      simp only [hint] at h
      exact Except.noConfusion h
    | ok interval =>
      simp only [hint] at h
      cases hrest : loadIntervalsForRows s rest with
      | error e =>
        simp only [hrest] at h
        exact Except.noConfusion h
      | ok intervals =>
        simp only [hrest] at h
        injection h with h'
        rw [← h']
        simp [loadShardInterval_id s row.shardId interval hint, ih intervals hrest]

/-- When every scanned row loads successfully, the whole list load
succeeds. -/
lemma loadIntervalsForRows_ok (s : MetaState) (rows : List ShardRow)
    (h : ∀ r ∈ rows, ∃ iv, LoadShardInterval s r.shardId = .ok iv) :
    ∃ l, loadIntervalsForRows s rows = .ok l := by
  induction rows with
  | nil => exact ⟨[], rfl⟩
  | cons row rest ih =>
    obtain ⟨iv, hiv⟩ := h row (by simp)
    obtain ⟨l, hl⟩ := ih (fun r hr => h r (by simp [hr]))
    exact ⟨iv :: l, by rw [loadIntervalsForRows, hiv, hl]⟩

end Helpers

/-- C6: for every table identifier with no partitioning record, both
resolvePartitionMethod (PartitionType) and resolvePartitionKey
(PartitionColumn) fail with NotDistributed. -/
theorem partition_lookups_fail_notDistributed (s : MetaState) (t : Nat)
    (h : s.partitionRows.find? (fun r => r.relationId == t) = none) :
    PartitionType s t = .error .NotDistributed ∧
      PartitionColumn s t = .error .NotDistributed := by
  rw [PartitionType, PartitionColumn, h]
  exact ⟨rfl, rfl⟩

/-- Witness for C6 at a concrete state with an unrelated partition row. -/
theorem partition_lookups_fail_notDistributed_witness :
    PartitionType ⟨[⟨3, 'h', ⟨23, -1⟩⟩], [], []⟩ 5 = .error .NotDistributed ∧
      PartitionColumn ⟨[⟨3, 'h', ⟨23, -1⟩⟩], [], []⟩ 5 = .error .NotDistributed :=
  partition_lookups_fail_notDistributed ⟨[⟨3, 'h', ⟨23, -1⟩⟩], [], []⟩ 5 (by rfl)

/-- C8: lockShard accepts exactly the modes ExclusiveLock and ShareLock,
appending the advisory lock built from the two 32-bit halves of the shard
identifier; any other mode fails with InvalidLockMode and acquires no lock
(the error exit returns no updated lock-manager state). -/
theorem lockShard_mode_spec (locks : List (LockTag × Nat)) (db : Nat)
    (shardId : Int) (mode : Nat) :
    (mode = ExclusiveLock ∨ mode = ShareLock →
      LockShard locks db shardId mode =
        .ok (locks ++ [(⟨db, uint64OfInt64 shardId / 2 ^ 32,
                          uint64OfInt64 shardId % 2 ^ 32, 0⟩, mode)])) ∧
    (mode ≠ ExclusiveLock ∧ mode ≠ ShareLock →
      LockShard locks db shardId mode = .error .InvalidLockMode) := by
  constructor
  · intro h
    rw [LockShard, if_pos h]
  · rintro ⟨h₁, h₂⟩
    rw [LockShard, if_neg (by tauto)]

/-- Witness for C8: mode 3 (RowExclusiveLock) is rejected with no lock
acquired; mode 7 (ExclusiveLock) is accepted. -/
theorem lockShard_mode_spec_witness :
    LockShard [] 1 42 3 = .error .InvalidLockMode ∧
      LockShard [] 1 42 7 =
        .ok [(⟨1, uint64OfInt64 42 / 2 ^ 32, uint64OfInt64 42 % 2 ^ 32, 0⟩, 7)] :=
  ⟨(lockShard_mode_spec [] 1 42 3).2 (by exact ⟨by decide, by decide⟩),
   (lockShard_mode_spec [] 1 42 7).1 (Or.inl rfl)⟩

/-- C9: the row stored by insertShardRow has both boundary columns null if
and only if at least one of the minValue and maxValue arguments is null; a
non-null boundary paired with a null one is discarded, and only when both
arguments are non-null are both strings stored as given. -/
theorem insertShardRow_null_boundary_coupling (s : MetaState) (t : Nat) (sid : Int)
    (stg : Char) :
    (∀ a b : String, (InsertShardRow s t sid stg (some a) (some b)).shardRows
        = s.shardRows ++ [⟨sid, t, stg, some a, some b⟩]) ∧
    (∀ a : String, (InsertShardRow s t sid stg (some a) none).shardRows
        = s.shardRows ++ [⟨sid, t, stg, none, none⟩]) ∧
    (∀ b : String, (InsertShardRow s t sid stg none (some b)).shardRows
        = s.shardRows ++ [⟨sid, t, stg, none, none⟩]) ∧
    ((InsertShardRow s t sid stg none none).shardRows
        = s.shardRows ++ [⟨sid, t, stg, none, none⟩]) ∧
    (∀ (minV maxV : Option String) (row : ShardRow),
      (InsertShardRow s t sid stg minV maxV).shardRows = s.shardRows ++ [row] →
      ((row.minValue = none ∧ row.maxValue = none) ↔ (minV = none ∨ maxV = none))) := by
  refine ⟨fun a b => rfl, fun a => rfl, fun b => rfl, rfl, ?_⟩
  intro minV maxV row h
  cases minV <;> cases maxV <;>
    (simp only [InsertShardRow] at h
     injection List.append_cancel_left h with h₁ h₂
     subst h₁
     simp)

/-- Witness for C9: a non-null minimum paired with a null maximum stores
both boundaries as null. -/
theorem insertShardRow_null_boundary_coupling_witness :
    (InsertShardRow ⟨[], [], []⟩ 1 2 't' (some "5") none).shardRows
      = [⟨2, 1, 't', none, none⟩] :=
  (insertShardRow_null_boundary_coupling ⟨[], [], []⟩ 1 2 't').2.1 "5"

/-- C4: loadPlacements (LoadShardPlacementList) fails with ShardNotPlaced
exactly when the shard identifier has zero placement rows; otherwise it
returns every placement row for that shard identifier, and after inserting
exactly one placement for a shard it returns exactly that placement. -/
theorem loadShardPlacementList_spec (s : MetaState) (sid : Int) :
    (LoadShardPlacementList s sid = .error .ShardNotPlaced ↔
      s.placementRows.filter (fun r => r.shardId == sid) = []) ∧
    (∀ l, LoadShardPlacementList s sid = .ok l →
      l = (s.placementRows.filter (fun r => r.shardId == sid)).map TupleToShardPlacement) ∧
    (∀ (oid pid st : Int) (nm : String) (np : Int),
      s.placementRows.filter (fun r => r.shardId == sid) = [] →
      LoadShardPlacementList (InsertShardPlacementRow s oid pid sid st nm np) sid
        = .ok [⟨oid, sid, st, nm, np⟩]) := by
  refine ⟨?_, ?_, ?_⟩
  · rw [LoadShardPlacementList]
    cases hfil : s.placementRows.filter (fun r => r.shardId == sid) <;> simp [hfil]
  · intro l h
    rw [LoadShardPlacementList] at h
    cases hfil : s.placementRows.filter (fun r => r.shardId == sid) <;>
      rw [hfil] at h <;> simp at h <;> simp [hfil, h]
  · intro oid pid st nm np hfil
    rw [LoadShardPlacementList, InsertShardPlacementRow]
    simp [List.filter_append, hfil, TupleToShardPlacement]

/-- Witness for C4: inserting one placement for shard 5 into an empty state
makes loadPlacements return exactly that placement. -/
theorem loadShardPlacementList_spec_witness :
    LoadShardPlacementList (InsertShardPlacementRow ⟨[], [], []⟩ 11 99 5 1 "node" 5432) 5
      = .ok [⟨11, 5, 1, "node", 5432⟩] :=
  (loadShardPlacementList_spec ⟨[], [], []⟩ 5).2.2 11 99 1 "node" 5432 rfl

/-- C5: loadFinalizedPlacements equals loadPlacements filtered to state
FINALIZED whenever the shard has at least one placement; it legitimately
returns an empty sequence (not an error) when all placements are
non-finalized; and on a shard with one finalized and one non-finalized
placement it returns exactly the finalized one. -/
theorem loadFinalizedPlacements_spec :
    (∀ (s : MetaState) (sid : Int) (l : List ShardPlacement),
      LoadShardPlacementList s sid = .ok l →
      LoadFinalizedShardPlacementList s sid
        = .ok (l.filter (fun p => p.shardState == STATE_FINALIZED))) ∧
    (∀ (s : MetaState) (sid : Int) (l : List ShardPlacement),
      LoadShardPlacementList s sid = .ok l →
      (∀ p ∈ l, p.shardState ≠ STATE_FINALIZED) →
      LoadFinalizedShardPlacementList s sid = .ok []) ∧
    (∀ (s : MetaState) (sid : Int) (r₁ r₂ : PlacementRow),
      s.placementRows.filter (fun r => r.shardId == sid) = [r₁, r₂] →
      r₁.shardState = STATE_FINALIZED → r₂.shardState ≠ STATE_FINALIZED →
      LoadFinalizedShardPlacementList s sid = .ok [TupleToShardPlacement r₁]) := by
  have hfin : ∀ (s : MetaState) (sid : Int) (l : List ShardPlacement),
      LoadShardPlacementList s sid = .ok l →
      LoadFinalizedShardPlacementList s sid
        = .ok (l.filter (fun p => p.shardState == STATE_FINALIZED)) := by
    intro s sid l h
    simp [LoadFinalizedShardPlacementList, h]
  refine ⟨hfin, ?_, ?_⟩
  · intro s sid l h hall
    rw [hfin s sid l h]
    have : l.filter (fun p => p.shardState == STATE_FINALIZED) = [] :=
      List.filter_eq_nil_iff.mpr (by simpa using hall)
    rw [this]
  · intro s sid r₁ r₂ hfil h₁ h₂
    have hload : LoadShardPlacementList s sid
        = .ok [TupleToShardPlacement r₁, TupleToShardPlacement r₂] := by
      rw [LoadShardPlacementList, hfil]
      rfl
    rw [hfin s sid _ hload]
    simp [TupleToShardPlacement, h₁, h₂]

/-- Witness for C5: a shard with one finalized and one non-finalized
placement yields exactly the finalized one. -/
theorem loadFinalizedPlacements_spec_witness :
    LoadFinalizedShardPlacementList ⟨[], [], [⟨1, 5, 1, "a", 1⟩, ⟨2, 5, 3, "b", 2⟩]⟩ 5
      = .ok [⟨1, 5, 1, "a", 1⟩] :=
  loadFinalizedPlacements_spec.2.2 ⟨[], [], [⟨1, 5, 1, "a", 1⟩, ⟨2, 5, 3, "b", 2⟩]⟩ 5
    ⟨1, 5, 1, "a", 1⟩ ⟨2, 5, 3, "b", 2⟩ (by rfl) (by rfl) (by decide)

/-- C10: the placement loaders never consult the shard metadata table: their
result is invariant under any change to the shard rows, and for a shard
identifier with no shard metadata row at all (and no placements) they fail
with ShardNotPlaced, never ShardNotFound. -/
theorem placement_lookups_ignore_shard_metadata (s : MetaState) (sid : Int)
    (hshard : s.shardRows.find? (fun r => r.shardId == sid) = none)
    (hplace : s.placementRows.filter (fun r => r.shardId == sid) = []) :
    LoadShardPlacementList s sid = .error .ShardNotPlaced ∧
      LoadFinalizedShardPlacementList s sid = .error .ShardNotPlaced ∧
      (∀ (pr : List PartitionRow) (sh₁ sh₂ : List ShardRow) (pl : List PlacementRow),
        LoadShardPlacementList ⟨pr, sh₁, pl⟩ sid = LoadShardPlacementList ⟨pr, sh₂, pl⟩ sid ∧
        LoadFinalizedShardPlacementList ⟨pr, sh₁, pl⟩ sid
          = LoadFinalizedShardPlacementList ⟨pr, sh₂, pl⟩ sid) := by
  have h₁ : LoadShardPlacementList s sid = .error .ShardNotPlaced := by
    rw [LoadShardPlacementList, hplace]
    rfl
  refine ⟨h₁, ?_, fun pr sh₁ sh₂ pl => ⟨rfl, rfl⟩⟩
  simp [LoadFinalizedShardPlacementList, h₁]

/-- Witness for C10: a shard identifier absent from both tables fails with
ShardNotPlaced on both loaders. -/
theorem placement_lookups_ignore_shard_metadata_witness :
    LoadShardPlacementList ⟨[], [⟨4, 2, 't', none, none⟩], []⟩ 9 = .error .ShardNotPlaced ∧
      LoadFinalizedShardPlacementList ⟨[], [⟨4, 2, 't', none, none⟩], []⟩ 9
        = .error .ShardNotPlaced :=
  ⟨(placement_lookups_ignore_shard_metadata ⟨[], [⟨4, 2, 't', none, none⟩], []⟩ 9 rfl rfl).1,
   (placement_lookups_ignore_shard_metadata ⟨[], [⟨4, 2, 't', none, none⟩], []⟩ 9 rfl rfl).2.1⟩

/-- C7: deleteShardPlacementRow removes exactly the placement row with the
given identifier when it exists, leaving every other placement row in place
and in order, and fails with PlacementNotFound when no such row exists, in
which case no row is deleted (the error exit produces no modified state). -/
theorem deleteShardPlacementRow_spec (s : MetaState) (pid : Int) :
    (∀ r : PlacementRow, s.placementRows.filter (fun x => x.oid == pid) = [r] →
      DeleteShardPlacementRow s pid
        = .ok ⟨s.partitionRows, s.shardRows,
               s.placementRows.filter (fun x => !(x.oid == pid))⟩) ∧
    (s.placementRows.find? (fun x => x.oid == pid) = none →
      DeleteShardPlacementRow s pid = .error .PlacementNotFound) := by
  constructor
  · intro r h
    have hfind := find?_of_filter_cons _ _ _ _ h
    rw [DeleteShardPlacementRow, hfind, eraseP_of_filter_singleton _ _ _ h]
  · intro h
    rw [DeleteShardPlacementRow, h]

/-- Witness for C7: deleting an existing placement removes exactly it, and
deleting an unknown identifier fails with PlacementNotFound. -/
theorem deleteShardPlacementRow_spec_witness :
    DeleteShardPlacementRow ⟨[], [], [⟨1, 5, 1, "a", 1⟩, ⟨2, 6, 1, "b", 2⟩]⟩ 1
        = .ok ⟨[], [], [⟨2, 6, 1, "b", 2⟩]⟩ ∧
      DeleteShardPlacementRow ⟨[], [], [⟨1, 5, 1, "a", 1⟩, ⟨2, 6, 1, "b", 2⟩]⟩ 3
        = .error .PlacementNotFound :=
  ⟨(deleteShardPlacementRow_spec ⟨[], [], [⟨1, 5, 1, "a", 1⟩, ⟨2, 6, 1, "b", 2⟩]⟩ 1).1
      ⟨1, 5, 1, "a", 1⟩ (by rfl),
   (deleteShardPlacementRow_spec ⟨[], [], [⟨1, 5, 1, "a", 1⟩, ⟨2, 6, 1, "b", 2⟩]⟩ 3).2 (by rfl)⟩

/-- C2: for every table t with a partitioning record and every shard id not
yet present, after insertShardRow(t, sid, STORAGE_TABLE, "5", "10"),
loadShardInterval(sid) returns a shard interval owned by t whose min and max
are "5" and "10" parsed by the text-to-value conversion of the boundary type, the
boundary type being the 32-bit signed integer type when t is
hash-partitioned and the type of the partition key column otherwise. -/
theorem insertShardRow_loadShardInterval_roundtrip (s : MetaState) (t : Nat) (sid : Int)
    (prow : PartitionRow)
    (hp : s.partitionRows.find? (fun r => r.relationId == t) = some prow)
    (hfresh : s.shardRows.find? (fun r => r.shardId == sid) = none)
    (ty : Nat) (tm : Int)
    (hty : (ty, tm) = if prow.partitionType = HASH_PARTITION_TYPE then (INT4OID, (-1 : Int))
                      else (prow.partitionKey.vartype, prow.partitionKey.vartypmod))
    (minD maxD : Datum)
    (hmin : OidInputFunctionCall ty "5" tm = .ok minD)
    (hmax : OidInputFunctionCall ty "10" tm = .ok maxD) :
    LoadShardInterval (InsertShardRow s t sid STORAGE_TABLE (some "5") (some "10")) sid
      = .ok ⟨sid, t, minD, maxD, ty⟩ := by
  set s' := InsertShardRow s t sid STORAGE_TABLE (some "5") (some "10") with hs'
  have hrow : LoadShardIntervalRow s' sid
      = .ok ⟨sid, t, STORAGE_TABLE, some "5", some "10"⟩ := by
    rw [LoadShardIntervalRow]
    have hrows : s'.shardRows
        = s.shardRows ++ [⟨sid, t, STORAGE_TABLE, some "5", some "10"⟩] := rfl
    rw [hrows, find?_append_of_none _ _ _ hfresh]
    simp
  have hpart : s'.partitionRows = s.partitionRows := rfl
  have hpt : PartitionType s' t = .ok prow.partitionType := by
    rw [PartitionType, hpart, hp]
  have hpc : PartitionColumn s' t = .ok prow.partitionKey := by
    rw [PartitionColumn, hpart, hp]
  by_cases hh : prow.partitionType = HASH_PARTITION_TYPE
  · rw [if_pos hh] at hty
    injection hty with hty₁ hty₂
    subst hty₁
    subst hty₂
    simp [LoadShardInterval, hrow, hpt, hh, hmin, hmax]
  · rw [if_neg hh] at hty
    injection hty with hty₁ hty₂
    subst hty₁
    subst hty₂
    simp [LoadShardInterval, hrow, hpt, hh, hpc, hmin, hmax]

/-- Witness for C2 on a hash-partitioned table: the boundaries parse at the
32-bit integer type to 5 and 10. -/
theorem insertShardRow_loadShardInterval_roundtrip_witness :
    LoadShardInterval
        (InsertShardRow ⟨[⟨7, 'h', ⟨23, -1⟩⟩], [], []⟩ 7 100 STORAGE_TABLE
          (some "5") (some "10")) 100
      = .ok ⟨100, 7, .int 5, .int 10, INT4OID⟩ :=
  insertShardRow_loadShardInterval_roundtrip ⟨[⟨7, 'h', ⟨23, -1⟩⟩], [], []⟩ 7 100
    ⟨7, 'h', ⟨23, -1⟩⟩ rfl rfl INT4OID (-1) (by rfl) (.int 5) (.int 10)
    (by rfl) (by rfl)

/-- C3: for every table identifier t and every sequence of interleaved
insertShardRow calls across multiple tables starting from a state with no
shards, loadShardIntervalList(t) returns exactly the shard identifiers
inserted for t, in insertion order (so none from other tables, none missing,
and no duplicates when the inserted identifiers are distinct); when t has no
shards it returns an empty sequence rather than an error; and it succeeds
whenever each scanned shard row loads. -/
theorem loadShardIntervalList_exact_inserted (s : MetaState) (ops : List InsertOp) (t : Nat)
    (hinit : s.shardRows = []) :
    (∀ l, LoadShardIntervalList (applyInserts s ops) t = .ok l →
      l.map ShardInterval.id = (ops.filter (fun op => op.tableId == t)).map InsertOp.shardId) ∧
    (ops.filter (fun op => op.tableId == t) = [] →
      LoadShardIntervalList (applyInserts s ops) t = .ok []) ∧
    ((∀ r ∈ (applyInserts s ops).shardRows.filter (fun r => r.relationId == t),
        ∃ iv, LoadShardInterval (applyInserts s ops) r.shardId = .ok iv) →
      ∃ l, LoadShardIntervalList (applyInserts s ops) t = .ok l) := by
  have hrows : (applyInserts s ops).shardRows.filter (fun r => r.relationId == t)
      = (ops.filter (fun op => op.tableId == t)).map storedShardRow := by
    rw [applyInserts_shardRows, hinit, List.nil_append, filter_map_storedShardRow]
  refine ⟨?_, ?_, ?_⟩
  · intro l h
    rw [LoadShardIntervalList, hrows] at h
    rw [loadIntervalsForRows_ids _ _ _ h, List.map_map]
    simp [Function.comp, storedShardRow_shardId]
  · intro hnil
    rw [LoadShardIntervalList, hrows, hnil]
    rfl
  · intro hall
    rw [hrows] at hall
    rw [LoadShardIntervalList, hrows]
    exact loadIntervalsForRows_ok _ _ hall

/-- Witness for C3: three interleaved insertions for tables 7 and 8; the
list for table 7 contains exactly shard ids 10 and 12. -/
theorem loadShardIntervalList_exact_inserted_witness :
    List.map ShardInterval.id
        ([⟨10, 7, .int 0, .int 5, 23⟩, ⟨12, 7, .int 6, .int 9, 23⟩] : List ShardInterval)
      = List.map InsertOp.shardId
          (List.filter (fun op => op.tableId == 7)
            ([⟨7, 10, 't', some "0", some "5"⟩, ⟨8, 11, 't', some "0", some "5"⟩,
              ⟨7, 12, 't', some "6", some "9"⟩] : List InsertOp)) :=
  (loadShardIntervalList_exact_inserted
      ⟨[⟨7, 'h', ⟨23, -1⟩⟩, ⟨8, 'h', ⟨23, -1⟩⟩], [], []⟩
      [⟨7, 10, 't', some "0", some "5"⟩, ⟨8, 11, 't', some "0", some "5"⟩,
       ⟨7, 12, 't', some "6", some "9"⟩] 7 rfl).1
    [⟨10, 7, .int 0, .int 5, 23⟩, ⟨12, 7, .int 6, .int 9, 23⟩] (by rfl)

/-- C1: getShardIntervals (LookupShardIntervalList) returns the memoized
list unchanged on a cache hit; on a miss it invokes loadShardIntervalList
and caches the result exactly when it is non-empty; consequently a first
call on a table with no shards returns empty and caches nothing, a second
call after a shard insertion returns the new shard (and caches it), and a
third call after a further insertion still returns the stale single-shard
result. -/
theorem lookupShardIntervalList_cache_spec :
    (∀ (s : MetaState) (cache : List ShardIntervalListCacheEntry) (t : Nat)
        (entry : ShardIntervalListCacheEntry),
      cache.find? (fun e => e.distributedTableId == t) = some entry →
      LookupShardIntervalList s cache t = .ok (entry.shardIntervalList, cache)) ∧
    (∀ (s : MetaState) (cache : List ShardIntervalListCacheEntry) (t : Nat),
      cache.find? (fun e => e.distributedTableId == t) = none →
      LookupShardIntervalList s cache t =
        match LoadShardIntervalList s t with
        | .error e => .error e
        | .ok [] => .ok ([], cache)
        | .ok (iv :: rest) => .ok (iv :: rest, cache ++ [⟨t, iv :: rest⟩])) ∧
    (∀ (s : MetaState) (cache : List ShardIntervalListCacheEntry) (t : Nat)
        (sid₁ sid₂ : Int) (prow : PartitionRow),
      cache.find? (fun e => e.distributedTableId == t) = none →
      s.shardRows = [] →
      s.partitionRows.find? (fun r => r.relationId == t) = some prow →
      prow.partitionType = HASH_PARTITION_TYPE →
      (LookupShardIntervalList s cache t = .ok ([], cache) ∧
       LookupShardIntervalList
           (InsertShardRow s t sid₁ STORAGE_TABLE (some "0") (some "10")) cache t
         = .ok ([⟨sid₁, t, .int 0, .int 10, INT4OID⟩],
                cache ++ [⟨t, [⟨sid₁, t, .int 0, .int 10, INT4OID⟩]⟩]) ∧
       LookupShardIntervalList
           (InsertShardRow (InsertShardRow s t sid₁ STORAGE_TABLE (some "0") (some "10"))
             t sid₂ STORAGE_TABLE (some "20") (some "30"))
           (cache ++ [⟨t, [⟨sid₁, t, .int 0, .int 10, INT4OID⟩]⟩]) t
         = .ok ([⟨sid₁, t, .int 0, .int 10, INT4OID⟩],
                cache ++ [⟨t, [⟨sid₁, t, .int 0, .int 10, INT4OID⟩]⟩]))) := by
  refine ⟨?_, ?_, ?_⟩
  · intro s cache t entry h
    simp only [LookupShardIntervalList, h]
  · intro s cache t h
    simp only [LookupShardIntervalList, h]
  · intro s cache t sid₁ sid₂ prow hc hinit hp hh
    have hload0 : LoadShardIntervalList s t = .ok [] := by
      rw [LoadShardIntervalList, hinit]
      rfl
    have hrows₁ : (InsertShardRow s t sid₁ STORAGE_TABLE (some "0") (some "10")).shardRows
        = [⟨sid₁, t, STORAGE_TABLE, some "0", some "10"⟩] := by
      show s.shardRows ++ [⟨sid₁, t, STORAGE_TABLE, some "0", some "10"⟩] = _
      rw [hinit]
      rfl
    have hpt₁ : PartitionType (InsertShardRow s t sid₁ STORAGE_TABLE (some "0") (some "10")) t
        = .ok prow.partitionType := by
      rw [PartitionType]
      show (match s.partitionRows.find? (fun r => r.relationId == t) with
        | some row => Except.ok row.partitionType
        | none => Except.error MetaError.NotDistributed) = _
      rw [hp]
    have hrowlookup : LoadShardIntervalRow
          (InsertShardRow s t sid₁ STORAGE_TABLE (some "0") (some "10")) sid₁
        = .ok ⟨sid₁, t, STORAGE_TABLE, some "0", some "10"⟩ := by
      rw [LoadShardIntervalRow, hrows₁]
      simp
    have hiv : LoadShardInterval
          (InsertShardRow s t sid₁ STORAGE_TABLE (some "0") (some "10")) sid₁
        = .ok ⟨sid₁, t, .int 0, .int 10, INT4OID⟩ := by
      simp [LoadShardInterval, hrowlookup, hpt₁, hh, oidInput_int4_zero, oidInput_int4_ten]
    have hload₁ : LoadShardIntervalList
          (InsertShardRow s t sid₁ STORAGE_TABLE (some "0") (some "10")) t
        = .ok [⟨sid₁, t, .int 0, .int 10, INT4OID⟩] := by
      rw [LoadShardIntervalList, hrows₁]
      simp [loadIntervalsForRows, hiv]
    have hfind₃ : List.find? (fun e => e.distributedTableId == t)
          (cache ++ ([⟨t, [⟨sid₁, t, .int 0, .int 10, INT4OID⟩]⟩] :
            List ShardIntervalListCacheEntry))
        = some ⟨t, [⟨sid₁, t, .int 0, .int 10, INT4OID⟩]⟩ := by
      rw [find?_append_of_none _ _ _ hc]
      simp
    refine ⟨?_, ?_, ?_⟩
    · simp only [LookupShardIntervalList, hc, hload0]
    · simp only [LookupShardIntervalList, hc, hload₁]
    · simp only [LookupShardIntervalList, hfind₃]

/-- Witness for C1: the three-call scenario on table 7, with shards 100 and
101 inserted between the calls. -/
theorem lookupShardIntervalList_cache_spec_witness :
    LookupShardIntervalList ⟨[⟨7, 'h', ⟨23, -1⟩⟩], [], []⟩ [] 7 = .ok ([], []) ∧
      LookupShardIntervalList
          (InsertShardRow ⟨[⟨7, 'h', ⟨23, -1⟩⟩], [], []⟩ 7 100 STORAGE_TABLE
            (some "0") (some "10")) [] 7
        = .ok ([⟨100, 7, .int 0, .int 10, INT4OID⟩],
               [⟨7, [⟨100, 7, .int 0, .int 10, INT4OID⟩]⟩]) ∧
      LookupShardIntervalList
          (InsertShardRow
            (InsertShardRow ⟨[⟨7, 'h', ⟨23, -1⟩⟩], [], []⟩ 7 100 STORAGE_TABLE
              (some "0") (some "10"))
            7 101 STORAGE_TABLE (some "20") (some "30"))
          [⟨7, [⟨100, 7, .int 0, .int 10, INT4OID⟩]⟩] 7
        = .ok ([⟨100, 7, .int 0, .int 10, INT4OID⟩],
               [⟨7, [⟨100, 7, .int 0, .int 10, INT4OID⟩]⟩]) :=
  lookupShardIntervalList_cache_spec.2.2 ⟨[⟨7, 'h', ⟨23, -1⟩⟩], [], []⟩ [] 7 100 101
    ⟨7, 'h', ⟨23, -1⟩⟩ rfl rfl rfl rfl

end PgShard
